import Mathlib

/-!
Verification development for the SNOMED subset-builder pipeline
(`tools/snomed_builder`): the RF2 release reader (`rf2_reader.py`), the
subset extractor (`subset.py`), the feature-token validator and the
IS-A edge extraction (`build.py`), and the SQLite writer
(`sqlite_writer.py`).

Modelling conventions:
  * a release file is modelled as the list of its rows; each row kind is a
    structure whose fields are the column strings the code reads;
  * Python `str.strip()` is `pyStrip` (ASCII whitespace model),
    `str.isdigit()` is `isDigits` (ASCII digits), `int(...)` is `pyInt?`
    (sign, digits, single underscores between digits; `none` models a
    raised `ValueError`/`TypeError`);
  * fallible code returns `Option`/`Except`; `sys.exit(n)` is `.error n`;
  * Python `set` objects are modelled as lists of the inserted elements
    (only membership is consumed downstream);
  * the SQLite `INSERT OR REPLACE` statements are modelled as
    `upsertMany` over a table modelled as a list of row tuples, keyed by
    each table's declared conflict key.
-/

namespace SnomedBuilder

/-- Whitespace test used by the model of Python `str.strip()`. -/
def isPySpace (c : Char) : Bool := c.isWhitespace

/-- Model of Python `str.strip()`: drop leading and trailing whitespace. -/
def pyStrip (s : String) : String :=
  String.mk ((((s.data.dropWhile isPySpace).reverse).dropWhile isPySpace).reverse)

/-- Numeric value of a list of ASCII digit characters. -/
def digitsVal (l : List Char) : Nat :=
  l.foldl (fun a c => a * 10 + (c.toNat - 48)) 0

/-- Tail of the digits-with-underscores grammar accepted by Python `int`:
after the first digit, an underscore must be followed by a digit. -/
def duTail : List Char → Bool
  | [] => true
  | '_' :: rest =>
    match rest with
    | [] => false
    | c :: r => c.isDigit && duTail r
  | c :: rest => c.isDigit && duTail rest

/-- Digit run accepted by Python `int`: a digit, then `duTail`. -/
def duOk : List Char → Bool
  | [] => false
  | c :: rest => c.isDigit && duTail rest

/-- Model of Python `int(s)` on a string: strip, optional sign, digits with
single underscores between digits; `none` models a raised `ValueError`. -/
def pyInt? (s : String) : Option Int :=
  let t := (pyStrip s).data
  match t with
  | '-' :: r => if duOk r then some (-(digitsVal (r.filter (fun c => c ≠ '_')) : Int)) else none
  | '+' :: r => if duOk r then some ((digitsVal (r.filter (fun c => c ≠ '_')) : Int)) else none
  | _ => if duOk t then some ((digitsVal (t.filter (fun c => c ≠ '_')) : Int)) else none

/-- Lexicographic code-point comparison of two character lists, the
order Python uses to compare (path) strings in `sorted`. -/
def pyStrLe : List Char → List Char → Bool
  | [], _ => true
  | _ :: _, [] => false
  | a :: as, b :: bs => if a < b then true else if b < a then false else pyStrLe as bs

/-- Lexicographic code-point order on path strings. -/
def pathLe (a b : String) : Bool := pyStrLe a.data b.data

/-- Model of Python `str.upper()` (ASCII case mapping). -/
def pyUpper (s : String) : String :=
  String.mk (s.data.map Char.toUpper)

/-- Model of Python `str.isdigit()` (ASCII digits; SNOMED ids are ASCII). -/
def isDigits (s : String) : Bool :=
  !s.isEmpty && s.data.all (fun c => c.isDigit)

/-- Value of `int(line)` on a line that passed `isDigits`. -/
def intOfDigits (s : String) : Int := (digitsVal s.data : Int)

/-- Model of Python `repr` (the `!r` format) for the plain strings that
appear in seed files: single-quoted. -/
def pyRepr (s : String) : String := "'" ++ s ++ "'"

/-! ## rf2_reader.py : RF2Snapshot -/

/-- A row of the concept snapshot file (the columns `subset.py` reads). -/
structure ConceptRow where
  id : String
  active : String
  effectiveTime : String
  moduleId : String
  definitionStatusId : String
deriving DecidableEq, Repr

/-- A row of the description snapshot file (the columns read by
`subset.py` and `build.py`). -/
structure DescriptionRow where
  id : String
  active : String
  effectiveTime : String
  moduleId : String
  conceptId : String
  languageCode : String
  typeId : String
  term : String
  caseSignificanceId : String
deriving DecidableEq, Repr

/-- A row of the language refset snapshot file. -/
structure LangRow where
  id : String
  active : String
  effectiveTime : String
  moduleId : String
  refsetId : String
  referencedComponentId : String
  acceptabilityId : String
deriving DecidableEq, Repr

/-- A relationship row as consumed by the IS-A loop in `build.py`
(the three columns it reads). -/
structure RelRow where
  typeId : String
  sourceId : String
  destinationId : String
deriving DecidableEq, Repr

/-- Model of `RF2Snapshot._is_active`: `row.get("active", "0") == "1"`. -/
def rowIsActive (active : String) : Bool := active == "1"

/-- Model of `RF2Snapshot.iter_concepts`: skip inactive rows when `active_only`. -/
def iterConcepts (activeOnly : Bool) (rows : List ConceptRow) : List ConceptRow :=
  if activeOnly then rows.filter (fun r => rowIsActive r.active) else rows

/-- Model of `RF2Snapshot.iter_descriptions`. -/
def iterDescriptions (activeOnly : Bool) (rows : List DescriptionRow) : List DescriptionRow :=
  if activeOnly then rows.filter (fun r => rowIsActive r.active) else rows

/-- Model of `RF2Snapshot.iter_language_refset`. -/
def iterLangRefset (activeOnly : Bool) (rows : List LangRow) : List LangRow :=
  if activeOnly then rows.filter (fun r => rowIsActive r.active) else rows

/-- The attributes (methods) the `RF2Snapshot` class defines in
`rf2_reader.py`, as probed by `hasattr` in `build.py`. -/
def rf2SnapshotMethods : List String :=
  ["__post_init__", "infer_release_id", "_pick_one",
   "concept_snapshot_path", "description_snapshot_path",
   "language_refset_snapshot_path", "_iter_tsv_dicts", "_is_active",
   "iter_concepts", "iter_descriptions", "iter_language_refset"]

/-- Fuelled glob matcher (`*` matches any run, `?` one character, other
characters literally), the fragment of `fnmatch` exercised by the
`rglob` patterns in `rf2_reader.py`. -/
def globMatchFuel : Nat → List Char → List Char → Bool
  | 0, _, _ => false
  | _ + 1, [], [] => true
  | _ + 1, [], _ :: _ => false
  | n + 1, '*' :: ps, s =>
    globMatchFuel n ps s ||
      (match s with
       | [] => false
       | _ :: s' => globMatchFuel n ('*' :: ps) s')
  | _ + 1, '?' :: _, [] => false
  | n + 1, '?' :: ps, _ :: s => globMatchFuel n ps s
  | _ + 1, _ :: _, [] => false
  | n + 1, p :: ps, c :: s => p == c && globMatchFuel n ps s

/-- Whether a file name matches one `rglob` pattern. -/
def globMatch (pat f : String) : Bool :=
  globMatchFuel (pat.length + f.length + 1) pat.data f.data

/-- Model of `RF2Snapshot._pick_one`: collect the files matching any pattern; if
none match, fail; otherwise sort the de-duplicated matches and take the
last (lexicographically greatest).  The directory tree under `root` is
modelled as the list of its file paths; `Path.resolve` as the identity. -/
def pick_one (files : List String) (patterns : List String) : Except String String :=
  let ms :=
    patterns.foldl (fun acc pat => acc ++ files.filter (fun f => globMatch pat f)) []
  if ms.isEmpty then
    .error ("RF2 Snapshot file not found under root. Tried patterns: "
              ++ String.intercalate ", " patterns)
  else
    .ok (((ms.dedup).insertionSort (fun a b => pathLe a b = true)).getLastD "")

/-- Model of `RF2Snapshot.concept_snapshot_path`. -/
def concept_snapshot_path (files : List String) : Except String String :=
  pick_one files ["sct2_Concept_Snapshot_*.txt", "sct2_Concept_Snapshot_*"]

/-- Model of `RF2Snapshot.description_snapshot_path`. -/
def description_snapshot_path (files : List String) (lang : String) : Except String String :=
  pick_one files
    ["sct2_Description_Snapshot-" ++ lang ++ "_*.txt",
     "sct2_Description_Snapshot_" ++ lang ++ "_*.txt",
     "sct2_Description_Snapshot_*.txt",
     "sct2_Description_Snapshot_*"]

/-- Model of `RF2Snapshot.language_refset_snapshot_path`. -/
def language_refset_snapshot_path (files : List String) (lang : String) : Except String String :=
  pick_one files
    ["der2_cRefset_LanguageSnapshot-" ++ lang ++ "_*.txt",
     "der2_cRefset_LanguageSnapshot_" ++ lang ++ "_*.txt",
     "der2_cRefset_LanguageSnapshot_*.txt",
     "der2_cRefset_LanguageSnapshot_*"]

/-! ## subset.py -/

/-- SNOMED description typeId: fully specified name. -/
def FSN_TYPE_ID : Int := 900000000000003001

/-- SNOMED description typeId: synonym. -/
def SYN_TYPE_ID : Int := 900000000000013009

/-- English (GB) language refset id. -/
def EN_GB_LANGREFSET : Int := 900000000000508004

/-- English (US) language refset id. -/
def EN_US_LANGREFSET : Int := 900000000000509007

/-- The comment-stripped, stripped remainder of one seed-file line:
`line = raw.strip()`, then, when a `#` is present,
`line = line.split("#", 1)[0].strip()`. -/
def seedRemainder (raw : String) : String :=
  let line := pyStrip raw
  if '#' ∈ line.data then pyStrip (String.mk (line.data.takeWhile (fun c => c ≠ '#')))
  else line

/-- The per-line loop of `load_subset_concept_ids`, carrying the set of
ids accumulated so far (modelled as the list of inserted ids). -/
def loadSeeds : List String → List Int → Except String (List Int)
  | [], acc => .ok acc
  | raw :: rest, acc =>
    let line := seedRemainder raw
    if line = "" then loadSeeds rest acc
    else if isDigits line then loadSeeds rest (acc ++ [intOfDigits line])
    else .error ("Invalid conceptId in subset file: " ++ pyRepr raw)

/-- Model of `subset.load_subset_concept_ids`, over the lines of the seed file. -/
def load_subset_concept_ids (lines : List String) : Except String (List Int) :=
  loadSeeds lines []

/-- Output concept tuple:
`(concept_id, active, effective_time, module_id, definition_status_id)`. -/
abbrev ConceptTuple := Int × Int × String × Int × Int

/-- Output description tuple:
`(description_id, concept_id, active, effective_time, module_id,
language_code, type_id, term, case_significance_id)`. -/
abbrev DescriptionTuple := Int × Int × Int × String × Int × String × Int × String × Int

/-- Output langrefset tuple:
`(langrefset_id, active, effective_time, module_id, refset_id,
referenced_component_id, acceptability_id)`. -/
abbrev LangTuple := Int × Int × String × Int × Int × Int × Int

/-- Model of `subset.SubsetResult`. -/
structure SubsetResult where
  concept_rows : List ConceptTuple
  description_rows : List DescriptionTuple
  langrefset_rows : List LangTuple
  kept_concepts : Nat
  kept_descriptions : Nat
  kept_langrefset : Nat
deriving Repr

/-- The concept loop of `build_subset_rows`: parse the id, skip ids not in
the seed set, otherwise record the id and the row tuple.  `none` models a
raised `ValueError` from `int(...)`. -/
def conceptStage (seed : List Int) :
    List ConceptRow → List Int → List ConceptTuple → Option (List Int × List ConceptTuple)
  | [], kept, out => some (kept, out)
  | r :: rest, kept, out =>
    match pyInt? r.id with
    | none => none
    | some cid =>
      if cid ∈ seed then
        match pyInt? r.active, pyInt? r.moduleId, pyInt? r.definitionStatusId with
        | some a, some m, some d =>
          conceptStage seed rest (kept ++ [cid]) (out ++ [(cid, a, r.effectiveTime, m, d)])
        | _, _, _ => none
      else conceptStage seed rest kept out

/-- The description loop of `build_subset_rows`: keep rows whose concept is
kept and (in terms-only mode) whose typeId is FSN or SYN; stop as soon as
a non-zero `limit_descriptions` is reached (`break` after the append). -/
def descStage (kept : List Int) (preferFsnSyn : Bool) (limit : Nat) :
    List DescriptionRow → List Int → List DescriptionTuple →
    Option (List Int × List DescriptionTuple)
  | [], keptD, out => some (keptD, out)
  | r :: rest, keptD, out =>
    match pyInt? r.conceptId with
    | none => none
    | some cid =>
      if cid ∈ kept then
        match pyInt? r.typeId with
        | none => none
        | some tid =>
          if preferFsnSyn ∧ tid ≠ FSN_TYPE_ID ∧ tid ≠ SYN_TYPE_ID then
            descStage kept preferFsnSyn limit rest keptD out
          else
            match pyInt? r.id, pyInt? r.active, pyInt? r.moduleId, pyInt? r.caseSignificanceId with
            | some did, some a, some m, some cs =>
              let keptD' := keptD ++ [did]
              let out' := out ++ [(did, cid, a, r.effectiveTime, m, r.languageCode, tid, r.term, cs)]
              if limit ≠ 0 ∧ limit ≤ out'.length then some (keptD', out')
              else descStage kept preferFsnSyn limit rest keptD' out'
            | _, _, _, _ => none
      else descStage kept preferFsnSyn limit rest keptD out

/-- The language-refset loop of `build_subset_rows`: keep rows whose
referenced component is a kept description and, when the refset allow-list
is non-empty, whose refsetId is in it; count kept rows. -/
def langStage (keptD : List Int) (langIds : List Int) :
    List LangRow → List LangTuple → Nat → Option (List LangTuple × Nat)
  | [], out, k => some (out, k)
  | r :: rest, out, k =>
    match pyInt? r.referencedComponentId with
    | none => none
    | some rc =>
      if rc ∈ keptD then
        match pyInt? r.refsetId with
        | none => none
        | some rid =>
          if langIds ≠ [] ∧ rid ∉ langIds then langStage keptD langIds rest out k
          else
            match pyInt? r.id, pyInt? r.active, pyInt? r.acceptabilityId, pyInt? r.moduleId with
            | some i, some a, some acc, some m =>
              langStage keptD langIds rest (out ++ [(i, a, r.effectiveTime, m, rid, rc, acc)]) (k + 1)
            | _, _, _, _ => none
      else langStage keptD langIds rest out k

/-- Model of `subset.build_subset_rows`, over the three snapshot-row streams.
The `rf2` object is modelled by the row lists its three iterators yield
(before the `active_only` filtering, which is applied here as in the
source's `iter_*` calls). -/
def build_subset_rows (cs : List ConceptRow) (ds : List DescriptionRow) (ls : List LangRow)
    (seed_concept_ids : List Int) (lang_refset_ids : Option (List Int))
    (prefer_fsn_and_synonyms : Bool) (limit_descriptions : Nat) : Option SubsetResult :=
  let langIds := lang_refset_ids.getD [EN_US_LANGREFSET, EN_GB_LANGREFSET]
  match conceptStage seed_concept_ids (iterConcepts true cs) [] [] with
  | none => none
  | some (keptC, conceptRows) =>
    match descStage keptC prefer_fsn_and_synonyms limit_descriptions
        (iterDescriptions true ds) [] [] with
    | none => none
    | some (keptD, descRows) =>
      match langStage keptD langIds (iterLangRefset true ls) [] 0 with
      | none => none
      | some (langRows, keptLang) =>
        some ⟨conceptRows, descRows, langRows,
              conceptRows.length, descRows.length, keptLang⟩

/-! ## build.py -/

/-- The IS-A loop in `build.main` (lines 208-219): keep `(sourceId,
destinationId)` of rows whose `typeId` is the string `"116680003"` and
whose child parses and is a kept concept id; a failed `int(...)` is
caught and the row skipped.  The input list models what
`rf2.iter_relationships(active_only=True)` would yield. -/
def extractIsaEdges : List RelRow → List Int → List (Int × Int)
  | [], _ => []
  | rel :: rest, keptConceptIds =>
    (if rel.typeId ≠ "116680003" then []
     else
       match pyInt? rel.sourceId, pyInt? rel.destinationId with
       | some child, some parent =>
         if child ∈ keptConceptIds then [(child, parent)] else []
       | _, _ => []) ++ extractIsaEdges rest keptConceptIds

/-- Model of the `build._build_fsn_index` body (the `iter_descriptions` path taken for
`RF2Snapshot`): for each active description row whose `typeId` string is
the FSN typeId, whose conceptId parses to a non-zero id and whose
stripped term is non-empty, record `idx[cid] = term` (later rows
overwrite earlier ones, as in a Python dict). -/
def buildFsnIndex (rows : List DescriptionRow) : List (Int × String) :=
  (iterDescriptions true rows).foldl
    (fun idx d =>
      if d.typeId ≠ "900000000000003001" then idx
      else
        match pyInt? d.conceptId with
        | none => idx
        | some cid =>
          let term := pyStrip d.term
          if cid ≠ 0 ∧ term ≠ "" then
            idx.filter (fun e => e.1 ≠ cid) ++ [(cid, term)]
          else idx)
    []

/-- Model of `fsn_index.get(concept_id, "")`. -/
def lookupFsn (idx : List (Int × String)) (cid : Int) : String :=
  match idx.find? (fun e => e.1 = cid) with
  | some e => e.2
  | none => ""

/-- Outcome of the duck-typed `rf2.get_concept` probe in
`build._is_concept_active`: the branch either returns a value (a
recognized active flag, or `none` for an unrecognized dict / a raised
exception) or falls through to the `concept_active` probe. -/
inductive GetConceptOutcome where
  | ret (r : Option Bool)
  | fallthrough
deriving DecidableEq, Repr

/-- Model of `build._is_concept_active`: try `get_concept` when the reader has it,
then `concept_active` when the reader has it, else `None`.  The two
duck-typed calls are abstracted as functions giving each probe's outcome;
for `concept_active`, `none` models a raised exception. -/
def is_concept_active (methods : List String)
    (getConceptProbe : Int → GetConceptOutcome)
    (conceptActiveProbe : Int → Option Bool) (cid : Int) : Option Bool :=
  let step1 : Option (Option Bool) :=
    if "get_concept" ∈ methods then
      match getConceptProbe cid with
      | .ret r => some r
      | .fallthrough => none
    else none
  match step1 with
  | some r => r
  | none =>
    if "concept_active" ∈ methods then conceptActiveProbe cid
    else none

/-- A raw row of the feature-map CSV (recognized columns; an absent
column reads as the empty string, as `r.get(...) or ""` does). -/
structure CsvRow where
  token : String
  map_to_snomed : String
  snomed_concept_id : String
  snomed_fsn : String
  fsn : String
  notes : String
deriving DecidableEq, Repr

/-- An imported feature-token mapping together with the fields the
validation report needs: `(token, concept_id, csv_fsn, note)`. -/
structure ImportedMapping where
  token : String
  concept_id : Int
  csv_fsn : String
  note : Option String
deriving DecidableEq, Repr

/-- The per-row import filter of the feature-map loop in `build.main`:
a row is imported when its stripped token is non-empty, its should-map
flag (stripped, uppercased) is affirmative, and its stripped concept id
is non-empty and parses as an integer. -/
def importRow (r : CsvRow) : Option ImportedMapping :=
  let fk := pyStrip r.token
  let mapFlag := pyUpper (pyStrip r.map_to_snomed)
  let cid := pyStrip r.snomed_concept_id
  let csvFsn := pyStrip (if r.snomed_fsn ≠ "" then r.snomed_fsn else r.fsn)
  if fk = "" then none
  else if mapFlag ≠ "TRUE" ∧ mapFlag ≠ "1" ∧ mapFlag ≠ "YES" ∧ mapFlag ≠ "Y" then none
  else if cid = "" then none
  else
    match pyInt? cid with
    | none => none
    | some conceptId =>
      let note := if pyStrip r.notes = "" then none else some (pyStrip r.notes)
      some ⟨fk, conceptId, csvFsn, note⟩

/-- The status classification of one imported mapping in `build.main`
(lines 273-284): name-based status first, then `concept_inactive`
overrides whenever the active flag is known false. -/
def classifyStatus (rf2Fsn csvFsn : String) (activeFlag : Option Bool) : String :=
  let status :=
    if rf2Fsn ≠ "" ∧ csvFsn ≠ "" ∧ pyStrip rf2Fsn ≠ pyStrip csvFsn then "fsn_mismatch"
    else if rf2Fsn = "" ∧ csvFsn ≠ "" then "fsn_not_found_in_rf2"
    else if rf2Fsn ≠ "" ∧ csvFsn = "" then "csv_fsn_missing"
    else "ok"
  if activeFlag = some false then "concept_inactive" else status

/-- One row of the feature-map validation report. -/
structure ReportRow where
  token : String
  snomed_concept_id : Int
  csv_snomed_fsn : String
  rf2_fsn : String
  concept_active : String
  status : String
  notes : String
deriving DecidableEq, Repr

/-- Build the validation-report row for one imported mapping, as the
validation branch of the feature-map loop does. -/
def mkReportRow (m : ImportedMapping) (idx : List (Int × String))
    (activeFlag : Option Bool) : ReportRow :=
  let rf2Fsn := lookupFsn idx m.concept_id
  { token := m.token
    snomed_concept_id := m.concept_id
    csv_snomed_fsn := m.csv_fsn
    rf2_fsn := rf2Fsn
    concept_active :=
      match activeFlag with
      | none => ""
      | some true => "1"
      | some false => "0"
    status := classifyStatus rf2Fsn m.csv_fsn activeFlag
    notes := m.note.getD "" }

/-- The validation-report rows for a list of imported mappings. -/
def reportRowsOf (imported : List ImportedMapping) (idx : List (Int × String))
    (activeOf : Int → Option Bool) : List ReportRow :=
  imported.map (fun m => mkReportRow m idx (activeOf m.concept_id))

/-- The feature-map section of `build.main` (run when `--feature-map` is
supplied): import the usable rows; exit 2 when none were imported; when
validation is on, compute the report and, when escalation is requested
and a non-`ok` status occurred, exit 3; otherwise return the imported
mappings and the report.  `.error n` models `sys.exit(n)`. -/
def featureMapStage (csvRows : List CsvRow) (validate failOnMismatch : Bool)
    (idx : List (Int × String)) (activeOf : Int → Option Bool) :
    Except Nat (List ImportedMapping × List ReportRow) :=
  let imported := csvRows.filterMap importRow
  if imported.length = 0 then .error 2
  else
    let reports := if validate then reportRowsOf imported idx activeOf else []
    let mismatches := reports.filter (fun r => ¬(r.status = "ok" ∨ r.status = ""))
    if validate ∧ failOnMismatch ∧ mismatches ≠ [] then .error 3
    else .ok (imported, reports)

/-- The seed-then-extract prefix of `build.main`: the seed list is parsed
(line 176) before any release row is consumed by `build_subset_rows`
(line 180); a seed parse error aborts before the streams are touched.
`int(...)` failures inside the extraction surface as a `ValueError`. -/
def runBuildStages (seedLines : List String) (cs : List ConceptRow)
    (ds : List DescriptionRow) (ls : List LangRow) (lim : Nat) :
    Except String SubsetResult :=
  match load_subset_concept_ids seedLines with
  | .error e => .error e
  | .ok seeds =>
    match build_subset_rows cs ds ls seeds none true lim with
    | some r => .ok r
    | none => .error "ValueError"

/-- A two-concept demonstration release: both concepts are active and
seeded; used to exhibit the description cap as a total row budget. -/
def demoConcepts : List ConceptRow :=
  [⟨"100", "1", "20240101", "5", "6"⟩, ⟨"200", "1", "20240101", "5", "6"⟩]

/-- Demonstration description stream: two kept rows for concept 100
followed by one kept row for concept 200. -/
def demoDescriptions : List DescriptionRow :=
  [⟨"11", "1", "20240101", "5", "100", "en", "900000000000003001", "A (finding)", "7"⟩,
   ⟨"12", "1", "20240101", "5", "100", "en", "900000000000013009", "A", "7"⟩,
   ⟨"21", "1", "20240101", "5", "200", "en", "900000000000003001", "B (finding)", "7"⟩]

/-! ## sqlite_writer.py -/

/-- One `INSERT OR REPLACE` of a row into a table keyed by `key`: the row
with a conflicting key (if any) is replaced, the new row is stored. -/
def upsert {α : Type} {κ : Type} [DecidableEq κ] (key : α → κ)
    (t : List α) (r : α) : List α :=
  t.filter (fun x => key x ≠ key r) ++ [r]

/-- An `executemany` of `INSERT OR REPLACE` statements. -/
def upsertMany {α : Type} {κ : Type} [DecidableEq κ] (key : α → κ)
    (t : List α) (rows : List α) : List α :=
  rows.foldl (upsert key) t

/-- Conflict key of the `concept` table: `concept_id INTEGER PRIMARY KEY`
(per the schema documented in `SQLiteWriter`). -/
def conceptKey (r : ConceptTuple) : Int := r.1

/-- Conflict key of the `description` table: `description_id`. -/
def descriptionKey (r : DescriptionTuple) : Int := r.1

/-- Conflict key of the `langrefset` table: `langrefset_id`. -/
def langrefsetKey (r : LangTuple) : Int := r.1

/-- Conflict key of the `isa_edge` table:
`PRIMARY KEY(child_concept_id, parent_concept_id)`. -/
def isaEdgeKey (r : Int × Int) : Int × Int := r

/-- A `feature_snomed_map` row: `(feature_key, concept_id, active, note)`. -/
abbrev FeatureMapTuple := String × Int × Int × Option String

/-- Modelled from the spec: the schema file (`snomed_schema.sql`) is not
in the repository; the spec fixes the natural key of the feature-token
bridge table as the token (each token appears at most once, last write
wins), so the conflict key of `feature_snomed_map` is `feature_key`. -/
def featureMapKey (r : FeatureMapTuple) : String := r.1

/-- Conflict key of the `meta` table: `key TEXT PRIMARY KEY`. -/
def metaKey (r : String × String) : String := r.1

/-- Model of `SQLiteWriter.insert_concepts`. -/
def insert_concepts (t rows : List ConceptTuple) : List ConceptTuple :=
  upsertMany conceptKey t rows

/-- Model of `SQLiteWriter.insert_descriptions`. -/
def insert_descriptions (t rows : List DescriptionTuple) : List DescriptionTuple :=
  upsertMany descriptionKey t rows

/-- Model of `SQLiteWriter.insert_langrefset`. -/
def insert_langrefset (t rows : List LangTuple) : List LangTuple :=
  upsertMany langrefsetKey t rows

/-- Model of `SQLiteWriter.insert_isa_edges`. -/
def insert_isa_edges (t rows : List (Int × Int)) : List (Int × Int) :=
  upsertMany isaEdgeKey t rows

/-- Model of `SQLiteWriter.insert_feature_snomed_map`. -/
def insert_feature_snomed_map (t rows : List FeatureMapTuple) : List FeatureMapTuple :=
  upsertMany featureMapKey t rows

/-- Model of `SQLiteWriter.write_meta` (the `INSERT OR REPLACE` over the
key-value pairs). -/
def write_meta (t rows : List (String × String)) : List (String × String) :=
  upsertMany metaKey t rows

/-! ## Helper lemmas about upserts -/

theorem upsert_nil {α κ : Type} [DecidableEq κ] (key : α → κ) (r : α) :
    upsert key [] r = [r] := rfl

theorem upsertMany_split {α κ : Type} [DecidableEq κ] (key : α → κ) :
    ∀ (rs t : List α),
      upsertMany key t rs
        = t.filter (fun x => decide (key x ∉ rs.map key)) ++ upsertMany key [] rs := by
  intro rs
  induction rs with
  | nil => intro t; simp [upsertMany]
  | cons r rs ih =>
    intro t
    show upsertMany key (upsert key t r) rs = _
    rw [ih (upsert key t r)]
    have hnil : upsertMany key [] (r :: rs) = upsertMany key [r] rs := by
      show upsertMany key (upsert key [] r) rs = _
      rw [upsert_nil]
    rw [hnil, ih [r]]
    show (upsert key t r).filter _ ++ _ = _
    rw [upsert, List.filter_append, List.append_assoc]
    congr 1
    rw [List.filter_filter]
    apply List.filter_congr
    intro x _
    by_cases h1 : key x = key r <;> by_cases h2 : key x ∈ rs.map key <;>
      simp [h1, h2]

theorem mem_upsertMany {α κ : Type} [DecidableEq κ] (key : α → κ) :
    ∀ (rs t : List α) (x : α), x ∈ upsertMany key t rs → x ∈ t ∨ x ∈ rs := by
  intro rs
  induction rs with
  | nil => intro t x hx; exact Or.inl hx
  | cons r rs ih =>
    intro t x hx
    rcases ih (upsert key t r) x hx with h | h
    · rw [upsert, List.mem_append] at h
      rcases h with h | h
      · exact Or.inl (List.mem_filter.mp h).1
      · simp only [List.mem_singleton] at h
        exact Or.inr (by simp [h])
    · exact Or.inr (List.mem_cons_of_mem _ h)

theorem filter_upsertMany_nil {α κ : Type} [DecidableEq κ] (key : α → κ) (rs : List α) :
    (upsertMany key [] rs).filter (fun x => decide (key x ∉ rs.map key)) = [] := by
  rw [List.filter_eq_nil_iff]
  intro x hx
  rcases mem_upsertMany key rs [] x hx with h | h
  · cases h
  · simp [List.mem_map]
    exact ⟨x, h, rfl⟩

theorem upsertMany_idem {α κ : Type} [DecidableEq κ] (key : α → κ)
    (t rs : List α) :
    upsertMany key (upsertMany key t rs) rs = upsertMany key t rs := by
  rw [upsertMany_split key rs (upsertMany key t rs), upsertMany_split key rs t,
    List.filter_append, filter_upsertMany_nil, List.filter_filter]
  rw [List.append_nil]
  congr 1
  apply List.filter_congr
  intro x _
  by_cases h : key x ∈ rs.map key <;> simp [h]

theorem upsert_nodup_keys {α κ : Type} [DecidableEq κ] (key : α → κ)
    (t : List α) (r : α) (h : (t.map key).Nodup) :
    ((upsert key t r).map key).Nodup := by
  rw [upsert, List.map_append, List.nodup_append]
  refine ⟨?_, List.nodup_singleton _, ?_⟩
  · exact ((List.filter_sublist t).map key).nodup h
  · intro a ha hb
    simp only [List.map_cons, List.map_nil, List.mem_singleton] at hb
    rcases List.mem_map.mp ha with ⟨x, hx, hax⟩
    have := (List.mem_filter.mp hx).2
    simp only [decide_eq_true_eq] at this
    exact this (hax.trans hb)

theorem upsertMany_nodup_keys {α κ : Type} [DecidableEq κ] (key : α → κ) :
    ∀ (rs t : List α), (t.map key).Nodup → ((upsertMany key t rs).map key).Nodup := by
  intro rs
  induction rs with
  | nil => intro t h; exact h
  | cons r rs ih =>
    intro t h
    exact ih (upsert key t r) (upsert_nodup_keys key t r h)

/-! ## Claim theorems -/

/-- C1: the claim states that for every release root, invoking the
relationship-stream accessor on the Release Reader yields relationship
rows rather than failing.  In the code, `RF2Snapshot` defines no
`iter_relationships` (nor any relationship accessor), while
`build.main` invokes `rf2.iter_relationships(active_only=True)`; the
invocation therefore raises `AttributeError` on every release root.
This theorem records, by evaluating the reader's method table, that the
accessor named by the caller does not exist. -/
theorem C1_rf2snapshot_lacks_relationship_accessor :
    (rf2SnapshotMethods.contains "iter_relationships") = false := by decide

/-- C10: the repository's `RF2Snapshot` defines neither `get_concept`
nor `concept_active`, so the validator's best-effort active-status
lookup (`build._is_concept_active`) returns `None` for every concept
id, every validation-report row carries an empty `concept_active`
field, and the `concept_inactive` classification is never assigned:
such mappings are classified by name comparison alone. -/
theorem C10_active_status_unknown_with_rf2snapshot :
    (rf2SnapshotMethods.contains "get_concept" = false) ∧
    (rf2SnapshotMethods.contains "concept_active" = false) ∧
    (∀ (g : Int → GetConceptOutcome) (c : Int → Option Bool) (cid : Int),
      is_concept_active rf2SnapshotMethods g c cid = none) ∧
    (∀ (m : ImportedMapping) (idx : List (Int × String))
        (g : Int → GetConceptOutcome) (c : Int → Option Bool),
      (mkReportRow m idx (is_concept_active rf2SnapshotMethods g c m.concept_id)).concept_active
          = "" ∧
      (mkReportRow m idx (is_concept_active rf2SnapshotMethods g c m.concept_id)).status
          ≠ "concept_inactive" ∧
      (mkReportRow m idx (is_concept_active rf2SnapshotMethods g c m.concept_id)).status
          = classifyStatus (lookupFsn idx m.concept_id) m.csv_fsn none) := by
  have hget : ("get_concept" ∈ rf2SnapshotMethods) = False := by simp [rf2SnapshotMethods]
  have hca : ("concept_active" ∈ rf2SnapshotMethods) = False := by simp [rf2SnapshotMethods]
  have hnone : ∀ (g : Int → GetConceptOutcome) (c : Int → Option Bool) (cid : Int),
      is_concept_active rf2SnapshotMethods g c cid = none := by
    intro g c cid
    simp [is_concept_active, hget, hca]
  refine ⟨by decide, by decide, hnone, ?_⟩
  intro m idx g c
  rw [hnone g c m.concept_id]
  refine ⟨rfl, ?_, rfl⟩
  show classifyStatus (lookupFsn idx m.concept_id) m.csv_fsn none ≠ "concept_inactive"
  unfold classifyStatus
  simp only [reduceCtorEq, if_false]
  split <;> first | decide | (split <;> first | decide | (split <;> decide))

/-- C4: every bulk load of the persisted store (concepts, descriptions,
language-acceptability rows, is-a edges, feature-token mappings,
metadata) is an insert-or-replace keyed by the entity's natural unique
key: re-running the same inserts with an identical row set over the same
table contents leaves the table identical, and a table whose keys were
unique stays free of duplicate keys after any load. -/
theorem C4_bulk_loads_idempotent_and_duplicate_free :
    (∀ t rows : List ConceptTuple,
        insert_concepts (insert_concepts t rows) rows = insert_concepts t rows) ∧
    (∀ t rows : List DescriptionTuple,
        insert_descriptions (insert_descriptions t rows) rows = insert_descriptions t rows) ∧
    (∀ t rows : List LangTuple,
        insert_langrefset (insert_langrefset t rows) rows = insert_langrefset t rows) ∧
    (∀ t rows : List (Int × Int),
        insert_isa_edges (insert_isa_edges t rows) rows = insert_isa_edges t rows) ∧
    (∀ t rows : List FeatureMapTuple,
        insert_feature_snomed_map (insert_feature_snomed_map t rows) rows
          = insert_feature_snomed_map t rows) ∧
    (∀ t rows : List (String × String),
        write_meta (write_meta t rows) rows = write_meta t rows) ∧
    (∀ t rows : List ConceptTuple, (t.map conceptKey).Nodup →
        ((insert_concepts t rows).map conceptKey).Nodup) ∧
    (∀ t rows : List DescriptionTuple, (t.map descriptionKey).Nodup →
        ((insert_descriptions t rows).map descriptionKey).Nodup) ∧
    (∀ t rows : List LangTuple, (t.map langrefsetKey).Nodup →
        ((insert_langrefset t rows).map langrefsetKey).Nodup) ∧
    (∀ t rows : List (Int × Int), (t.map isaEdgeKey).Nodup →
        ((insert_isa_edges t rows).map isaEdgeKey).Nodup) ∧
    (∀ t rows : List FeatureMapTuple, (t.map featureMapKey).Nodup →
        ((insert_feature_snomed_map t rows).map featureMapKey).Nodup) ∧
    (∀ t rows : List (String × String), (t.map metaKey).Nodup →
        ((write_meta t rows).map metaKey).Nodup) :=
  ⟨fun t rows => upsertMany_idem conceptKey t rows,
   fun t rows => upsertMany_idem descriptionKey t rows,
   fun t rows => upsertMany_idem langrefsetKey t rows,
   fun t rows => upsertMany_idem isaEdgeKey t rows,
   fun t rows => upsertMany_idem featureMapKey t rows,
   fun t rows => upsertMany_idem metaKey t rows,
   fun t rows h => upsertMany_nodup_keys conceptKey rows t h,
   fun t rows h => upsertMany_nodup_keys descriptionKey rows t h,
   fun t rows h => upsertMany_nodup_keys langrefsetKey rows t h,
   fun t rows h => upsertMany_nodup_keys isaEdgeKey rows t h,
   fun t rows h => upsertMany_nodup_keys featureMapKey rows t h,
   fun t rows h => upsertMany_nodup_keys metaKey rows t h⟩

/-- C4 witness: the no-duplicate-key conclusions applied at concrete
tables and row sets, each `Nodup` hypothesis discharged by `decide`. -/
theorem C4_bulk_loads_idempotent_and_duplicate_free_witness :
    ((insert_concepts [(7, 1, "20240101", 2, 3)]
        [(7, 0, "20250101", 2, 3), (8, 1, "20250101", 2, 3)]).map conceptKey).Nodup ∧
    ((insert_descriptions [] [(1, 7, 1, "20240101", 2, "en", 3, "Fever", 4)]).map
        descriptionKey).Nodup ∧
    ((insert_langrefset [] [(1, 1, "20240101", 2, 3, 4, 5)]).map langrefsetKey).Nodup ∧
    ((insert_isa_edges [(1, 2)] [(1, 2), (1, 3)]).map isaEdgeKey).Nodup ∧
    ((insert_feature_snomed_map [] [("tok", 7, 1, none)]).map featureMapKey).Nodup ∧
    ((write_meta [("subset_name", "custom_subset")]
        [("subset_name", "x"), ("schema_version", "1.1")]).map metaKey).Nodup :=
  ⟨C4_bulk_loads_idempotent_and_duplicate_free.2.2.2.2.2.2.1 _ _ (by decide),
   C4_bulk_loads_idempotent_and_duplicate_free.2.2.2.2.2.2.2.1 _ _ (by decide),
   C4_bulk_loads_idempotent_and_duplicate_free.2.2.2.2.2.2.2.2.1 _ _ (by decide),
   C4_bulk_loads_idempotent_and_duplicate_free.2.2.2.2.2.2.2.2.2.1 _ _ (by decide),
   C4_bulk_loads_idempotent_and_duplicate_free.2.2.2.2.2.2.2.2.2.2.1 _ _ (by decide),
   C4_bulk_loads_idempotent_and_duplicate_free.2.2.2.2.2.2.2.2.2.2.2 _ _ (by decide)⟩

/-- C3: for every imported mapping undergoing validation (whose names,
as produced by the import pipeline, are already stripped), the
classification is a single status: both names present and different
gives `fsn_mismatch`; an expected name without an authoritative name
gives `fsn_not_found_in_rf2`; an authoritative name without an expected
name gives `csv_fsn_missing`; otherwise `ok`; and a known-inactive
active flag overrides any name-based status with `concept_inactive`, so
a known-inactive concept is never classified `ok`. -/
theorem C3_validation_status_classification (r c : String)
    (hr : pyStrip r = r) (hc : pyStrip c = c) :
    (∀ a : Option Bool, a ≠ some false → r ≠ "" → c ≠ "" → r ≠ c →
        classifyStatus r c a = "fsn_mismatch") ∧
    (∀ a : Option Bool, a ≠ some false → r = "" → c ≠ "" →
        classifyStatus r c a = "fsn_not_found_in_rf2") ∧
    (∀ a : Option Bool, a ≠ some false → r ≠ "" → c = "" →
        classifyStatus r c a = "csv_fsn_missing") ∧
    (∀ a : Option Bool, a ≠ some false → r = c → classifyStatus r c a = "ok") ∧
    (∀ a : Option Bool, a = some false → classifyStatus r c a = "concept_inactive") ∧
    (∀ a : Option Bool, a = some false → classifyStatus r c a ≠ "ok") := by
  refine ⟨?_, ?_, ?_, ?_, ?_, ?_⟩
  · intro a ha h1 h2 h3
    simp [classifyStatus, hr, hc, h1, h2, h3, ha]
  · intro a ha h1 h2
    simp [classifyStatus, h1, h2, ha]
  · intro a ha h1 h2
    simp [classifyStatus, h1, h2, ha]
  · intro a ha h
    subst h
    by_cases h1 : r = "" <;> simp [classifyStatus, h1, ha]
  · intro a ha
    simp [classifyStatus, ha]
  · intro a ha
    simp [classifyStatus, ha]

/-- C3 witness: the classification evaluated at concrete already-stripped
names, with every hypothesis discharged. -/
theorem C3_validation_status_classification_witness :
    classifyStatus "Fever (finding)" "Cough (finding)" none = "fsn_mismatch" ∧
    classifyStatus "Fever (finding)" "Cough (finding)" (some false) = "concept_inactive" :=
  ⟨(C3_validation_status_classification "Fever (finding)" "Cough (finding)"
      (by decide) (by decide)).1 none (by decide) (by decide) (by decide) (by decide),
   (C3_validation_status_classification "Fever (finding)" "Cough (finding)"
      (by decide) (by decide)).2.2.2.2.1 (some false) rfl⟩

/-- C5: when a feature-map file is supplied but no row is imported (no
row has a non-empty token, an affirmative should-map flag and a
syntactically valid integer concept id), the feature-map section always
exits with code 2 — even on a non-empty file — and every abort of this
section carries code 2 exactly when zero rows were imported, so the
mismatch-escalation abort (code 3, requested via
`--fail-on-feature-map-mismatch`) is distinct; both codes are
non-zero. -/
theorem C5_zero_imported_mappings_abort (csvRows : List CsvRow)
    (validate failOn : Bool) (idx : List (Int × String)) (activeOf : Int → Option Bool) :
    (csvRows.filterMap importRow = [] →
       featureMapStage csvRows validate failOn idx activeOf = .error 2) ∧
    (∀ n, featureMapStage csvRows validate failOn idx activeOf = .error n →
       (n = 2 ∨ n = 3) ∧ n ≠ 0) ∧
    (∀ n, featureMapStage csvRows validate failOn idx activeOf = .error n →
       (n = 2 ↔ csvRows.filterMap importRow = [])) ∧
    (csvRows.filterMap importRow ≠ [] → validate = true → failOn = true →
       (reportRowsOf (csvRows.filterMap importRow) idx activeOf).filter
           (fun r => ¬(r.status = "ok" ∨ r.status = "")) ≠ [] →
       featureMapStage csvRows validate failOn idx activeOf = .error 3) := by
  refine ⟨?_, ?_, ?_, ?_⟩
  · intro h
    simp [featureMapStage, h]
  · intro n h
    simp only [featureMapStage] at h
    by_cases hlen : (csvRows.filterMap importRow).length = 0
    · rw [if_pos hlen] at h
      injection h with h
      exact ⟨Or.inl (by omega), by omega⟩
    · rw [if_neg hlen] at h
      split at h <;> split at h <;>
        first
          | (injection h with h; exact ⟨Or.inr (by omega), by omega⟩)
          | cases h
  · intro n h
    simp only [featureMapStage] at h
    by_cases hlen : (csvRows.filterMap importRow).length = 0
    · rw [if_pos hlen] at h
      injection h with h
      constructor
      · intro _; exact List.length_eq_zero.mp hlen
      · intro _; omega
    · rw [if_neg hlen] at h
      split at h <;> split at h <;>
        first
          | (injection h with h;
             exact ⟨fun h2 => absurd h2 (by omega),
                    fun hnil => absurd (by simp [hnil]) hlen⟩)
          | cases h
  · intro hne hv hf hmis
    subst hv; subst hf
    have hlen : ¬(csvRows.filterMap importRow).length = 0 := by
      simpa [List.length_eq_zero] using hne
    simp only [featureMapStage]
    rw [if_neg hlen, if_pos ⟨trivial, trivial, by simpa using hmis⟩]

/-- C5 witness: a non-empty mapping file whose single row has a negative
should-map flag exits with code 2, and an escalated mismatch exits with
code 3. -/
theorem C5_zero_imported_mappings_abort_witness :
    ([(⟨"tok", "FALSE", "123", "", "", ""⟩ : CsvRow)] ≠ ([] : List CsvRow)) ∧
    featureMapStage [⟨"tok", "FALSE", "123", "", "", ""⟩] true true [] (fun _ => none)
      = .error 2 ∧
    featureMapStage [⟨"tok", "TRUE", "123", "", "Fever", ""⟩] true true [] (fun _ => none)
      = .error 3 :=
  ⟨by decide,
   (C5_zero_imported_mappings_abort [⟨"tok", "FALSE", "123", "", "", ""⟩]
      true true [] (fun _ => none)).1 (by decide),
   (C5_zero_imported_mappings_abort [⟨"tok", "TRUE", "123", "", "Fever", ""⟩]
      true true [] (fun _ => none)).2.2.2 (by decide) rfl rfl (by decide)⟩

/-! ## Helper lemmas about seed-list parsing -/

theorem loadSeeds_ok_lines : ∀ (lines : List String) (acc vals : List Int),
    loadSeeds lines acc = .ok vals →
    ∀ raw ∈ lines, seedRemainder raw = "" ∨ isDigits (seedRemainder raw) = true := by
  intro lines
  induction lines with
  | nil => intro acc vals _ raw hraw; cases hraw
  | cons raw rest ih =>
    intro acc vals h x hx
    by_cases h1 : seedRemainder raw = ""
    · simp only [loadSeeds, h1, if_pos] at h
      rcases List.mem_cons.mp hx with rfl | hx
      · exact Or.inl h1
      · exact ih acc vals (by simpa [h1] using h) x hx
    · by_cases h2 : isDigits (seedRemainder raw) = true
      · simp only [loadSeeds, h1, h2] at h
        rcases List.mem_cons.mp hx with rfl | hx
        · exact Or.inr h2
        · exact ih _ vals (by simpa [h1, h2] using h) x hx
      · exfalso
        simp [loadSeeds, h1, h2] at h

theorem loadSeeds_ok_mem : ∀ (lines : List String) (acc vals : List Int),
    loadSeeds lines acc = .ok vals →
    ∀ cid : Int, cid ∈ vals ↔ cid ∈ acc ∨
      ∃ raw ∈ lines, seedRemainder raw ≠ "" ∧ isDigits (seedRemainder raw) = true ∧
        intOfDigits (seedRemainder raw) = cid := by
  intro lines
  induction lines with
  | nil =>
    intro acc vals h cid
    simp only [loadSeeds] at h
    injection h with h
    subst h
    simp
  | cons raw rest ih =>
    intro acc vals h cid
    by_cases h1 : seedRemainder raw = ""
    · have h' : loadSeeds rest acc = .ok vals := by simpa [loadSeeds, h1] using h
      rw [ih acc vals h' cid]
      constructor
      · rintro (hc | ⟨x, hx, hne, hd, hv⟩)
        · exact Or.inl hc
        · exact Or.inr ⟨x, List.mem_cons_of_mem _ hx, hne, hd, hv⟩
      · rintro (hc | ⟨x, hx, hne, hd, hv⟩)
        · exact Or.inl hc
        · rcases List.mem_cons.mp hx with rfl | hx
          · exact absurd h1 hne
          · exact Or.inr ⟨x, hx, hne, hd, hv⟩
    · by_cases h2 : isDigits (seedRemainder raw) = true
      · have h' : loadSeeds rest (acc ++ [intOfDigits (seedRemainder raw)]) = .ok vals := by
          simpa [loadSeeds, h1, h2] using h
        rw [ih _ vals h' cid]
        constructor
        · rintro (hc | ⟨x, hx, hne, hd, hv⟩)
          · rcases List.mem_append.mp hc with hc | hc
            · exact Or.inl hc
            · refine Or.inr ⟨raw, List.mem_cons_self _ _, h1, h2, ?_⟩
              have : cid = intOfDigits (seedRemainder raw) := by simpa using hc
              exact this.symm
          · exact Or.inr ⟨x, List.mem_cons_of_mem _ hx, hne, hd, hv⟩
        · rintro (hc | ⟨x, hx, hne, hd, hv⟩)
          · exact Or.inl (List.mem_append.mpr (Or.inl hc))
          · rcases List.mem_cons.mp hx with rfl | hx
            · exact Or.inl (List.mem_append.mpr (Or.inr (by simp [hv])))
            · exact Or.inr ⟨x, hx, hne, hd, hv⟩
      · exfalso
        simp [loadSeeds, h1, h2] at h

theorem loadSeeds_err : ∀ (lines : List String) (acc : List Int),
    (∃ raw ∈ lines, seedRemainder raw ≠ "" ∧ isDigits (seedRemainder raw) = false) →
    ∃ raw ∈ lines, seedRemainder raw ≠ "" ∧ isDigits (seedRemainder raw) = false ∧
      loadSeeds lines acc = .error ("Invalid conceptId in subset file: " ++ pyRepr raw) := by
  intro lines
  induction lines with
  | nil => rintro acc ⟨raw, hraw, _⟩; cases hraw
  | cons raw rest ih =>
    rintro acc hbad
    by_cases h1 : seedRemainder raw = ""
    · have hrest : ∃ x ∈ rest, seedRemainder x ≠ "" ∧ isDigits (seedRemainder x) = false := by
        rcases hbad with ⟨x, hx, hne, hd⟩
        rcases List.mem_cons.mp hx with rfl | hx
        · exact absurd h1 hne
        · exact ⟨x, hx, hne, hd⟩
      rcases ih acc hrest with ⟨x, hx, hne, hd, heq⟩
      exact ⟨x, List.mem_cons_of_mem _ hx, hne, hd, by simpa [loadSeeds, h1] using heq⟩
    · by_cases h2 : isDigits (seedRemainder raw) = true
      · have hrest : ∃ x ∈ rest, seedRemainder x ≠ "" ∧ isDigits (seedRemainder x) = false := by
          rcases hbad with ⟨x, hx, hne, hd⟩
          rcases List.mem_cons.mp hx with rfl | hx
          · rw [h2] at hd; cases hd
          · exact ⟨x, hx, hne, hd⟩
        rcases ih (acc ++ [intOfDigits (seedRemainder raw)]) hrest with ⟨x, hx, hne, hd, heq⟩
        exact ⟨x, List.mem_cons_of_mem _ hx, hne, hd, by simpa [loadSeeds, h1, h2] using heq⟩
      · refine ⟨raw, List.mem_cons_self _ _, h1, by simpa using h2, ?_⟩
        simp [loadSeeds, h1, h2]

/-- C6: seed-list parsing strips trailing `#` comments and ignores blank
lines; a successful load contains exactly the numeric values of the
non-blank comment-stripped remainders, all of which are digit strings;
when some line's non-empty remainder is not numeric, loading fails with
a hard parse error naming an offending raw line; and the failure is
eager — the build pipeline parses the seed list before consuming any
release row, so a malformed seed list yields the parse error and no
subset rows, whatever the release streams contain. -/
theorem C6_seed_list_parsing :
    (∀ (lines : List String) (vals : List Int),
       load_subset_concept_ids lines = .ok vals →
       (∀ raw ∈ lines, seedRemainder raw = "" ∨ isDigits (seedRemainder raw) = true) ∧
       (∀ cid : Int, cid ∈ vals ↔
          ∃ raw ∈ lines, seedRemainder raw ≠ "" ∧ isDigits (seedRemainder raw) = true ∧
            intOfDigits (seedRemainder raw) = cid)) ∧
    (∀ lines : List String,
       (∃ raw ∈ lines, seedRemainder raw ≠ "" ∧ isDigits (seedRemainder raw) = false) →
       ∃ raw ∈ lines, seedRemainder raw ≠ "" ∧ isDigits (seedRemainder raw) = false ∧
         load_subset_concept_ids lines
           = .error ("Invalid conceptId in subset file: " ++ pyRepr raw)) ∧
    (∀ (lines : List String) (e : String) (cs : List ConceptRow)
        (ds : List DescriptionRow) (ls : List LangRow) (lim : Nat),
       load_subset_concept_ids lines = .error e →
       runBuildStages lines cs ds ls lim = .error e) := by
  refine ⟨?_, ?_, ?_⟩
  · intro lines vals h
    refine ⟨loadSeeds_ok_lines lines [] vals h, ?_⟩
    intro cid
    rw [loadSeeds_ok_mem lines [] vals h cid]
    simp
  · intro lines hbad
    exact loadSeeds_err lines [] hbad
  · intro lines e cs ds ls lim h
    simp [runBuildStages, h]

/-- C6 witness: a seed file whose last line is non-numeric fails with the
parse error naming that line, and the build pipeline propagates exactly
that error whatever the release streams hold. -/
theorem C6_seed_list_parsing_witness :
    runBuildStages ["386661006 # fever", "", "abc!"] [] [] [] 0
      = .error "Invalid conceptId in subset file: 'abc!'" :=
  C6_seed_list_parsing.2.2 ["386661006 # fever", "", "abc!"]
    "Invalid conceptId in subset file: 'abc!'" [] [] [] 0 rfl

/-! ## Helper lemmas about file discovery -/

theorem mem_matchFold (files : List String) :
    ∀ (pats acc : List String) (x : String),
      x ∈ pats.foldl (fun acc pat => acc ++ files.filter (fun f => globMatch pat f)) acc ↔
        x ∈ acc ∨ ∃ p ∈ pats, x ∈ files ∧ globMatch p x = true := by
  intro pats
  induction pats with
  | nil => intro acc x; simp
  | cons p ps ih =>
    intro acc x
    rw [List.foldl_cons, ih]
    simp only [List.mem_append, List.mem_filter, List.mem_cons]
    constructor
    · rintro ((hx | ⟨hx, hm⟩) | ⟨q, hq, hxf, hm⟩)
      · exact Or.inl hx
      · exact Or.inr ⟨p, Or.inl rfl, hx, hm⟩
      · exact Or.inr ⟨q, Or.inr hq, hxf, hm⟩
    · rintro (hx | ⟨q, (rfl | hq), hxf, hm⟩)
      · exact Or.inl (Or.inl hx)
      · exact Or.inl (Or.inr ⟨hxf, hm⟩)
      · exact Or.inr ⟨q, hq, hxf, hm⟩

theorem getLastD_mem : ∀ (l : List String) (d : String), l ≠ [] → l.getLastD d ∈ l := by
  intro l
  induction l with
  | nil => intro d h; exact absurd rfl h
  | cons a t ih =>
    intro d _
    rw [List.getLastD_cons]
    cases t with
    | nil => simp [List.getLastD]
    | cons b t' => exact List.mem_cons_of_mem _ (ih a (by simp))

theorem pyStrLe_refl : ∀ a : List Char, pyStrLe a a = true := by
  intro a
  induction a with
  | nil => rfl
  | cons x as ih => simp [pyStrLe, lt_irrefl, ih]

theorem pyStrLe_total : ∀ a b : List Char, pyStrLe a b = true ∨ pyStrLe b a = true := by
  intro a
  induction a with
  | nil => intro b; exact Or.inl rfl
  | cons x as ih =>
    intro b
    cases b with
    | nil => exact Or.inr rfl
    | cons y bs =>
      rcases lt_trichotomy x y with h | h | h
      · left; simp [pyStrLe, h]
      · subst h
        rcases ih bs with h' | h'
        · left; simpa [pyStrLe, lt_irrefl] using h'
        · right; simpa [pyStrLe, lt_irrefl] using h'
      · right; simp [pyStrLe, h]

theorem pyStrLe_trans : ∀ a b c : List Char,
    pyStrLe a b = true → pyStrLe b c = true → pyStrLe a c = true := by
  intro a
  induction a with
  | nil => intro b c _ _; rfl
  | cons x as ih =>
    intro b c hab hbc
    cases b with
    | nil => simp [pyStrLe] at hab
    | cons y bs =>
      cases c with
      | nil => simp [pyStrLe] at hbc
      | cons z cs =>
        rcases lt_trichotomy x y with hxy | hxy | hxy
        · rcases lt_trichotomy y z with hyz | hyz | hyz
          · simp [pyStrLe, hxy.trans hyz]
          · subst hyz; simp [pyStrLe, hxy]
          · simp [pyStrLe, hyz, asymm hyz] at hbc
        · subst hxy
          rcases lt_trichotomy x z with hyz | hyz | hyz
          · simp [pyStrLe, hyz]
          · subst hyz
            simp only [pyStrLe, lt_irrefl, if_false] at hab hbc ⊢
            exact ih bs cs hab hbc
          · simp [pyStrLe, hyz, asymm hyz] at hbc
        · simp [pyStrLe, hxy, asymm hxy] at hab

theorem sorted_le_getLastD : ∀ (l : List String), l.Sorted (fun a b => pathLe a b = true) →
    ∀ x ∈ l, ∀ d, pathLe x (l.getLastD d) = true := by
  intro l
  induction l with
  | nil => intro _ x hx; cases hx
  | cons a t ih =>
    intro hs x hx d
    rw [List.getLastD_cons]
    rcases List.mem_cons.mp hx with rfl | hx
    · cases t with
      | nil => simp [List.getLastD, pathLe, pyStrLe_refl]
      | cons b t' =>
        have hab : pathLe x b = true := (List.sorted_cons.mp hs).1 b (List.mem_cons_self _ _)
        exact pyStrLe_trans _ _ _ hab
          (ih (List.sorted_cons.mp hs).2 b (List.mem_cons_self _ _) x)
    · exact ih (List.sorted_cons.mp hs).2 x hx a

/-- C9: for every release root (modelled as the list of file paths under
it) and every pattern list of a row kind, the accessor returns the
lexicographically greatest matching path whenever at least one file
matches some pattern, and it raises the not-found error if and only if
no file matches any pattern. -/
theorem C9_release_file_discovery (files patterns : List String) :
    ((∃ e, pick_one files patterns = .error e) ↔
        ∀ f ∈ files, ∀ p ∈ patterns, globMatch p f = false) ∧
    (∀ g, pick_one files patterns = .ok g →
        (g ∈ files ∧ ∃ p ∈ patterns, globMatch p g = true) ∧
        ∀ f ∈ files, ∀ p ∈ patterns, globMatch p f = true → pathLe f g = true) := by
  have key : ∀ x, (x ∈ patterns.foldl
        (fun acc pat => acc ++ files.filter (fun f => globMatch pat f)) []) ↔
      (∃ p ∈ patterns, x ∈ files ∧ globMatch p x = true) := by
    intro x
    rw [mem_matchFold]
    simp
  constructor
  · constructor
    · rintro ⟨e, he⟩ f hf p hp
      simp only [pick_one] at he
      split at he
      · rename_i hempty
        rw [List.isEmpty_iff] at hempty
        by_contra hne
        have hft : globMatch p f = true := by
          cases hgm : globMatch p f with
          | true => rfl
          | false => exact absurd hgm hne
        have : f ∈ ([] : List String) := by
          rw [← hempty]
          exact (key f).mpr ⟨p, hp, hf, hft⟩
        cases this
      · cases he
    · intro hall
      simp only [pick_one]
      split
      · exact ⟨_, rfl⟩
      · rename_i hempty
        exfalso
        have hne : (patterns.foldl
            (fun acc pat => acc ++ files.filter (fun f => globMatch pat f)) []) ≠ [] := by
          simpa [List.isEmpty_iff] using hempty
        rcases List.exists_mem_of_ne_nil _ hne with ⟨x, hx⟩
        rcases (key x).mp hx with ⟨p, hp, hxf, hm⟩
        rw [hall x hxf p hp] at hm
        cases hm
  · intro g hg
    simp only [pick_one] at hg
    split at hg
    · cases hg
    · rename_i hempty
      injection hg with hg
      have hms : ¬(patterns.foldl
          (fun acc pat => acc ++ files.filter (fun f => globMatch pat f)) []) = [] := by
        intro hnil
        rw [hnil] at hempty
        exact hempty rfl
      have hd : (patterns.foldl
          (fun acc pat => acc ++ files.filter (fun f => globMatch pat f)) []).dedup ≠ [] := by
        intro hnil
        exact hms ((List.dedup_eq_nil _).mp hnil)
      have hperm := List.perm_insertionSort (fun a b : String => pathLe a b = true)
        (patterns.foldl (fun acc pat => acc ++ files.filter (fun f => globMatch pat f)) []).dedup
      have hsorted := @List.sorted_insertionSort String (fun a b => pathLe a b = true)
        (fun _ _ => inferInstance)
        ⟨fun a b => pyStrLe_total a.data b.data⟩
        ⟨fun a b c => pyStrLe_trans a.data b.data c.data⟩
        (patterns.foldl (fun acc pat => acc ++ files.filter (fun f => globMatch pat f)) []).dedup
      have hsnil : (patterns.foldl
            (fun acc pat => acc ++ files.filter (fun f => globMatch pat f)) []).dedup.insertionSort
          (fun a b => pathLe a b = true) ≠ [] := by
        intro hnil
        rw [hnil] at hperm
        exact hd hperm.nil_eq.symm
      subst hg
      constructor
      · have hmem := getLastD_mem _ "" hsnil
        have hgms := List.mem_dedup.mp (hperm.mem_iff.mp hmem)
        rcases (key _).mp hgms with ⟨p, hp, hgf, hm⟩
        exact ⟨hgf, p, hp, hm⟩
      · intro f hf p hp hm
        have hfin := (key f).mpr ⟨p, hp, hf, hm⟩
        have hfs := hperm.mem_iff.mpr (List.mem_dedup.mpr hfin)
        exact sorted_le_getLastD _ hsorted f hfs ""

/-- C9 witness: with two dated concept-snapshot variants under the root,
the accessor picks the lexicographically greatest (most recent) one,
which matches the first pattern, and the other match is bounded by it. -/
theorem C9_release_file_discovery_witness :
    concept_snapshot_path
        ["README.md", "sct2_Concept_Snapshot_INT_20240101.txt",
         "sct2_Concept_Snapshot_INT_20250101.txt"]
      = .ok "sct2_Concept_Snapshot_INT_20250101.txt" ∧
    pathLe "sct2_Concept_Snapshot_INT_20240101.txt"
      "sct2_Concept_Snapshot_INT_20250101.txt" = true :=
  ⟨rfl,
   ((C9_release_file_discovery
        ["README.md", "sct2_Concept_Snapshot_INT_20240101.txt",
         "sct2_Concept_Snapshot_INT_20250101.txt"]
        ["sct2_Concept_Snapshot_*.txt", "sct2_Concept_Snapshot_*"]).2
      "sct2_Concept_Snapshot_INT_20250101.txt" rfl).2
    "sct2_Concept_Snapshot_INT_20240101.txt" (by decide)
    "sct2_Concept_Snapshot_*.txt" (by decide) (by decide)⟩

/-! ## Helper lemmas about the extraction stages -/

theorem conceptStage_sync (seed : List Int) :
    ∀ (rows : List ConceptRow) (kept : List Int) (out : List ConceptTuple)
      (r : List Int × List ConceptTuple),
      conceptStage seed rows kept out = some r → kept = out.map (fun t => t.1) →
      r.1 = r.2.map (fun t => t.1) := by
  intro rows
  induction rows with
  | nil =>
    intro kept out r h hk
    simp only [conceptStage] at h
    injection h with h
    subst h
    exact hk
  | cons row rest ih =>
    intro kept out r h hk
    cases hid : pyInt? row.id with
    | none => simp [conceptStage, hid] at h
    | some cid =>
      by_cases hs : cid ∈ seed
      · cases ha : pyInt? row.active with
        | none => simp [conceptStage, hid, hs, ha] at h
        | some a =>
          cases hm : pyInt? row.moduleId with
          | none => simp [conceptStage, hid, hs, ha, hm] at h
          | some m =>
            cases hd : pyInt? row.definitionStatusId with
            | none => simp [conceptStage, hid, hs, ha, hm, hd] at h
            | some d =>
              have h' : conceptStage seed rest (kept ++ [cid])
                  (out ++ [(cid, a, row.effectiveTime, m, d)]) = some r := by
                simpa [conceptStage, hid, hs, ha, hm, hd] using h
              exact ih _ _ r h' (by simp [hk])
      · have h' : conceptStage seed rest kept out = some r := by
          simpa [conceptStage, hid, hs] using h
        exact ih _ _ r h' hk

theorem conceptStage_mem (seed : List Int) :
    ∀ (rows : List ConceptRow) (kept : List Int) (out : List ConceptTuple)
      (r : List Int × List ConceptTuple),
      conceptStage seed rows kept out = some r →
      ∀ cid : Int, cid ∈ r.1 ↔ cid ∈ kept ∨
        ∃ row ∈ rows, pyInt? row.id = some cid ∧ cid ∈ seed := by
  intro rows
  induction rows with
  | nil =>
    intro kept out r h cid
    simp only [conceptStage] at h
    injection h with h
    subst h
    simp
  | cons row rest ih =>
    intro kept out r h cid
    cases hid : pyInt? row.id with
    | none => simp [conceptStage, hid] at h
    | some cid' =>
      by_cases hs : cid' ∈ seed
      · cases ha : pyInt? row.active with
        | none => simp [conceptStage, hid, hs, ha] at h
        | some a =>
          cases hm : pyInt? row.moduleId with
          | none => simp [conceptStage, hid, hs, ha, hm] at h
          | some m =>
            cases hd : pyInt? row.definitionStatusId with
            | none => simp [conceptStage, hid, hs, ha, hm, hd] at h
            | some d =>
              have h' : conceptStage seed rest (kept ++ [cid'])
                  (out ++ [(cid', a, row.effectiveTime, m, d)]) = some r := by
                simpa [conceptStage, hid, hs, ha, hm, hd] using h
              rw [ih _ _ r h' cid]
              constructor
              · rintro (hc | ⟨x, hx, hxid, hxs⟩)
                · rcases List.mem_append.mp hc with hc | hc
                  · exact Or.inl hc
                  · have : cid = cid' := by simpa using hc
                    subst this
                    exact Or.inr ⟨row, List.mem_cons_self _ _, hid, hs⟩
                · exact Or.inr ⟨x, List.mem_cons_of_mem _ hx, hxid, hxs⟩
              · rintro (hc | ⟨x, hx, hxid, hxs⟩)
                · exact Or.inl (List.mem_append.mpr (Or.inl hc))
                · rcases List.mem_cons.mp hx with rfl | hx
                  · rw [hid] at hxid
                    injection hxid with hxid
                    exact Or.inl (List.mem_append.mpr (Or.inr (by simp [hxid])))
                  · exact Or.inr ⟨x, hx, hxid, hxs⟩
      · have h' : conceptStage seed rest kept out = some r := by
          simpa [conceptStage, hid, hs] using h
        rw [ih _ _ r h' cid]
        constructor
        · rintro (hc | ⟨x, hx, hxid, hxs⟩)
          · exact Or.inl hc
          · exact Or.inr ⟨x, List.mem_cons_of_mem _ hx, hxid, hxs⟩
        · rintro (hc | ⟨x, hx, hxid, hxs⟩)
          · exact Or.inl hc
          · rcases List.mem_cons.mp hx with rfl | hx
            · rw [hid] at hxid
              injection hxid with hxid
              subst hxid
              exact absurd hxs hs
            · exact Or.inr ⟨x, hx, hxid, hxs⟩

theorem descStage_inv (kept : List Int) (pref : Bool) (lim : Nat) :
    ∀ (rows : List DescriptionRow) (keptD : List Int) (out : List DescriptionTuple)
      (r : List Int × List DescriptionTuple),
      descStage kept pref lim rows keptD out = some r →
      (∀ d ∈ out, d.2.1 ∈ kept ∧ (pref = true →
        d.2.2.2.2.2.2.1 = FSN_TYPE_ID ∨ d.2.2.2.2.2.2.1 = SYN_TYPE_ID)) →
      ∀ d ∈ r.2, d.2.1 ∈ kept ∧ (pref = true →
        d.2.2.2.2.2.2.1 = FSN_TYPE_ID ∨ d.2.2.2.2.2.2.1 = SYN_TYPE_ID) := by
  intro rows
  induction rows with
  | nil =>
    intro keptD out r h hout
    simp only [descStage] at h
    injection h with h
    subst h
    exact hout
  | cons row rest ih =>
    intro keptD out r h hout
    cases hcid : pyInt? row.conceptId with
    | none => simp [descStage, hcid] at h
    | some cid =>
      by_cases hk : cid ∈ kept
      · cases htid : pyInt? row.typeId with
        | none => simp [descStage, hcid, hk, htid] at h
        | some tid =>
          by_cases hskip : pref = true ∧ tid ≠ FSN_TYPE_ID ∧ tid ≠ SYN_TYPE_ID
          · have h' : descStage kept pref lim rest keptD out = some r := by
              simpa [descStage, hcid, hk, htid, hskip] using h
            exact ih _ _ r h' hout
          · cases hdid : pyInt? row.id with
            | none => simp [descStage, hcid, hk, htid, hskip, hdid] at h
            | some did =>
              cases ha : pyInt? row.active with
              | none => simp [descStage, hcid, hk, htid, hskip, hdid, ha] at h
              | some a =>
                cases hm : pyInt? row.moduleId with
                | none => simp [descStage, hcid, hk, htid, hskip, hdid, ha, hm] at h
                | some m =>
                  cases hcs : pyInt? row.caseSignificanceId with
                  | none => simp [descStage, hcid, hk, htid, hskip, hdid, ha, hm, hcs] at h
                  | some csg =>
                    have hnew : ∀ d ∈ out ++ [(did, cid, a, row.effectiveTime, m,
                        row.languageCode, tid, row.term, csg)],
                        d.2.1 ∈ kept ∧ (pref = true →
                          d.2.2.2.2.2.2.1 = FSN_TYPE_ID ∨ d.2.2.2.2.2.2.1 = SYN_TYPE_ID) := by
                      intro d hd
                      rcases List.mem_append.mp hd with hd | hd
                      · exact hout d hd
                      · have : d = (did, cid, a, row.effectiveTime, m,
                            row.languageCode, tid, row.term, csg) := by simpa using hd
                        subst this
                        refine ⟨hk, ?_⟩
                        intro hpref
                        by_contra hno
                        push_neg at hno
                        exact hskip ⟨hpref, hno.1, hno.2⟩
                    have hred : descStage kept pref lim (row :: rest) keptD out =
                        (if lim ≠ 0 ∧ lim ≤ out.length + 1 then
                          some (keptD ++ [did], out ++ [(did, cid, a, row.effectiveTime, m,
                            row.languageCode, tid, row.term, csg)])
                        else descStage kept pref lim rest (keptD ++ [did])
                          (out ++ [(did, cid, a, row.effectiveTime, m,
                            row.languageCode, tid, row.term, csg)])) := by
                      simp [descStage, hcid, hk, htid, hskip, hdid, ha, hm, hcs]
                    rw [hred] at h
                    by_cases hstop : lim ≠ 0 ∧ lim ≤ out.length + 1
                    · rw [if_pos hstop] at h
                      injection h with h
                      subst h
                      exact hnew
                    · rw [if_neg hstop] at h
                      exact ih _ _ r h hnew
      · have h' : descStage kept pref lim rest keptD out = some r := by
          simpa [descStage, hcid, hk] using h
        exact ih _ _ r h' hout

theorem descStage_sync_cap (kept : List Int) (pref : Bool) (lim : Nat) :
    ∀ (rows : List DescriptionRow) (keptD : List Int) (out : List DescriptionTuple)
      (r : List Int × List DescriptionTuple),
      descStage kept pref lim rows keptD out = some r →
      (keptD = out.map (fun t => t.1) → r.1 = r.2.map (fun t => t.1)) ∧
      (lim ≠ 0 → out.length < lim → r.2.length ≤ lim) := by
  intro rows
  induction rows with
  | nil =>
    intro keptD out r h
    simp only [descStage] at h
    injection h with h
    subst h
    exact ⟨fun hk => hk, fun _ hlt => Nat.le_of_lt hlt⟩
  | cons row rest ih =>
    intro keptD out r h
    cases hcid : pyInt? row.conceptId with
    | none => simp [descStage, hcid] at h
    | some cid =>
      by_cases hk : cid ∈ kept
      · cases htid : pyInt? row.typeId with
        | none => simp [descStage, hcid, hk, htid] at h
        | some tid =>
          by_cases hskip : pref = true ∧ tid ≠ FSN_TYPE_ID ∧ tid ≠ SYN_TYPE_ID
          · have h' : descStage kept pref lim rest keptD out = some r := by
              simpa [descStage, hcid, hk, htid, hskip] using h
            exact ih _ _ r h'
          · cases hdid : pyInt? row.id with
            | none => simp [descStage, hcid, hk, htid, hskip, hdid] at h
            | some did =>
              cases ha : pyInt? row.active with
              | none => simp [descStage, hcid, hk, htid, hskip, hdid, ha] at h
              | some a =>
                cases hm : pyInt? row.moduleId with
                | none => simp [descStage, hcid, hk, htid, hskip, hdid, ha, hm] at h
                | some m =>
                  cases hcs : pyInt? row.caseSignificanceId with
                  | none => simp [descStage, hcid, hk, htid, hskip, hdid, ha, hm, hcs] at h
                  | some csg =>
                    have hred : descStage kept pref lim (row :: rest) keptD out =
                        (if lim ≠ 0 ∧ lim ≤ out.length + 1 then
                          some (keptD ++ [did], out ++ [(did, cid, a, row.effectiveTime, m,
                            row.languageCode, tid, row.term, csg)])
                        else descStage kept pref lim rest (keptD ++ [did])
                          (out ++ [(did, cid, a, row.effectiveTime, m,
                            row.languageCode, tid, row.term, csg)])) := by
                      simp [descStage, hcid, hk, htid, hskip, hdid, ha, hm, hcs]
                    rw [hred] at h
                    by_cases hstop : lim ≠ 0 ∧ lim ≤ out.length + 1
                    · rw [if_pos hstop] at h
                      injection h with h
                      subst h
                      constructor
                      · intro hkk
                        simp [hkk]
                      · intro hlim hlt
                        simp
                        omega
                    · rw [if_neg hstop] at h
                      have := ih _ _ r h
                      constructor
                      · intro hkk
                        exact this.1 (by simp [hkk])
                      · intro hlim hlt
                        refine this.2 hlim ?_
                        simp only [List.length_append, List.length_cons, List.length_nil]
                        omega
      · have h' : descStage kept pref lim rest keptD out = some r := by
          simpa [descStage, hcid, hk] using h
        exact ih _ _ r h'

theorem descStage_stop (kept : List Int) (pref : Bool) (lim : Nat) :
    ∀ (ds₁ ds₂ : List DescriptionRow) (keptD : List Int) (out : List DescriptionTuple)
      (r : List Int × List DescriptionTuple),
      lim ≠ 0 → out.length < lim →
      descStage kept pref lim ds₁ keptD out = some r → r.2.length = lim →
      descStage kept pref lim (ds₁ ++ ds₂) keptD out = some r := by
  intro ds₁
  induction ds₁ with
  | nil =>
    intro ds₂ keptD out r hlim hlt h hlen
    simp only [descStage] at h
    injection h with h
    subst h
    simp only at hlen
    omega
  | cons row rest ih =>
    intro ds₂ keptD out r hlim hlt h hlen
    rw [List.cons_append]
    cases hcid : pyInt? row.conceptId with
    | none => simp [descStage, hcid] at h
    | some cid =>
      by_cases hk : cid ∈ kept
      · cases htid : pyInt? row.typeId with
        | none => simp [descStage, hcid, hk, htid] at h
        | some tid =>
          by_cases hskip : pref = true ∧ tid ≠ FSN_TYPE_ID ∧ tid ≠ SYN_TYPE_ID
          · have h' : descStage kept pref lim rest keptD out = some r := by
              simpa [descStage, hcid, hk, htid, hskip] using h
            have := ih ds₂ keptD out r hlim hlt h' hlen
            simpa [descStage, hcid, hk, htid, hskip] using this
          · cases hdid : pyInt? row.id with
            | none => simp [descStage, hcid, hk, htid, hskip, hdid] at h
            | some did =>
              cases ha : pyInt? row.active with
              | none => simp [descStage, hcid, hk, htid, hskip, hdid, ha] at h
              | some a =>
                cases hm : pyInt? row.moduleId with
                | none => simp [descStage, hcid, hk, htid, hskip, hdid, ha, hm] at h
                | some m =>
                  cases hcs : pyInt? row.caseSignificanceId with
                  | none => simp [descStage, hcid, hk, htid, hskip, hdid, ha, hm, hcs] at h
                  | some csg =>
                    have hred : ∀ tl : List DescriptionRow,
                        descStage kept pref lim (row :: tl) keptD out =
                        (if lim ≠ 0 ∧ lim ≤ out.length + 1 then
                          some (keptD ++ [did], out ++ [(did, cid, a, row.effectiveTime, m,
                            row.languageCode, tid, row.term, csg)])
                        else descStage kept pref lim tl (keptD ++ [did])
                          (out ++ [(did, cid, a, row.effectiveTime, m,
                            row.languageCode, tid, row.term, csg)])) := by
                      intro tl
                      simp [descStage, hcid, hk, htid, hskip, hdid, ha, hm, hcs]
                    rw [hred] at h
                    rw [hred]
                    by_cases hstop : lim ≠ 0 ∧ lim ≤ out.length + 1
                    · rw [if_pos hstop] at h ⊢
                      exact h
                    · rw [if_neg hstop] at h ⊢
                      refine ih ds₂ _ _ r hlim ?_ h hlen
                      simp only [List.length_append, List.length_cons, List.length_nil]
                      omega
      · have h' : descStage kept pref lim rest keptD out = some r := by
          simpa [descStage, hcid, hk] using h
        have := ih ds₂ keptD out r hlim hlt h' hlen
        simpa [descStage, hcid, hk] using this

theorem langStage_mem (keptD : List Int) (langIds : List Int) :
    ∀ (rows : List LangRow) (out : List LangTuple) (k : Nat)
      (r : List LangTuple × Nat),
      langStage keptD langIds rows out k = some r →
      (∀ l ∈ out, l.2.2.2.2.2.1 ∈ keptD) →
      ∀ l ∈ r.1, l.2.2.2.2.2.1 ∈ keptD := by
  intro rows
  induction rows with
  | nil =>
    intro out k r h hout
    simp only [langStage] at h
    injection h with h
    subst h
    exact hout
  | cons row rest ih =>
    intro out k r h hout
    cases hrc : pyInt? row.referencedComponentId with
    | none => simp [langStage, hrc] at h
    | some rc =>
      by_cases hk : rc ∈ keptD
      · cases hrid : pyInt? row.refsetId with
        | none => simp [langStage, hrc, hk, hrid] at h
        | some rid =>
          by_cases hskip : langIds ≠ [] ∧ rid ∉ langIds
          · have h' : langStage keptD langIds rest out k = some r := by
              simpa [langStage, hrc, hk, hrid, hskip] using h
            exact ih _ _ r h' hout
          · cases hi : pyInt? row.id with
            | none => simp [langStage, hrc, hk, hrid, hskip, hi] at h
            | some i =>
              cases ha : pyInt? row.active with
              | none => simp [langStage, hrc, hk, hrid, hskip, hi, ha] at h
              | some a =>
                cases hacc : pyInt? row.acceptabilityId with
                | none => simp [langStage, hrc, hk, hrid, hskip, hi, ha, hacc] at h
                | some acc =>
                  cases hm : pyInt? row.moduleId with
                  | none => simp [langStage, hrc, hk, hrid, hskip, hi, ha, hacc, hm] at h
                  | some m =>
                    have h' : langStage keptD langIds rest
                        (out ++ [(i, a, row.effectiveTime, m, rid, rc, acc)]) (k + 1)
                          = some r := by
                      simpa [langStage, hrc, hk, hrid, hskip, hi, ha, hacc, hm] using h
                    refine ih _ _ r h' ?_
                    intro l hl
                    rcases List.mem_append.mp hl with hl | hl
                    · exact hout l hl
                    · have : l = (i, a, row.effectiveTime, m, rid, rc, acc) := by simpa using hl
                      subst this
                      exact hk
      · have h' : langStage keptD langIds rest out k = some r := by
          simpa [langStage, hrc, hk] using h
        exact ih _ _ r h' hout

theorem extractIsaEdges_child_mem (keptIds : List Int) :
    ∀ (rels : List RelRow), ∀ e ∈ extractIsaEdges rels keptIds, e.1 ∈ keptIds := by
  intro rels
  induction rels with
  | nil => intro e he; cases he
  | cons rel rest ih =>
    intro e he
    rw [extractIsaEdges] at he
    rcases List.mem_append.mp he with he | he
    · by_cases ht : rel.typeId ≠ "116680003"
      · rw [if_pos ht] at he; cases he
      · rw [if_neg ht] at he
        cases hs : pyInt? rel.sourceId with
        | none => rw [hs] at he; simp at he
        | some child =>
          cases hd : pyInt? rel.destinationId with
          | none => rw [hs, hd] at he; simp at he
          | some parent =>
            rw [hs, hd] at he
            have he' : e ∈ (if child ∈ keptIds then [(child, parent)] else []) := he
            by_cases hc : child ∈ keptIds
            · rw [if_pos hc] at he'
              have : e = (child, parent) := by simpa using he'
              subst this
              exact hc
            · rw [if_neg hc] at he'; cases he'
    · exact ih e he

theorem build_subset_rows_decompose (cs : List ConceptRow) (ds : List DescriptionRow)
    (ls : List LangRow) (seed : List Int) (lrids : Option (List Int))
    (pref : Bool) (lim : Nat) (res : SubsetResult)
    (h : build_subset_rows cs ds ls seed lrids pref lim = some res) :
    ∃ keptC keptD klang,
      conceptStage seed (iterConcepts true cs) [] [] = some (keptC, res.concept_rows) ∧
      descStage keptC pref lim (iterDescriptions true ds) [] []
        = some (keptD, res.description_rows) ∧
      langStage keptD (lrids.getD [EN_US_LANGREFSET, EN_GB_LANGREFSET])
        (iterLangRefset true ls) [] 0 = some (res.langrefset_rows, klang) ∧
      res = ⟨res.concept_rows, res.description_rows, res.langrefset_rows,
             res.concept_rows.length, res.description_rows.length, klang⟩ := by
  simp only [build_subset_rows] at h
  cases hc : conceptStage seed (iterConcepts true cs) [] [] with
  | none => rw [hc] at h; simp at h
  | some p =>
    obtain ⟨keptC, crows⟩ := p
    rw [hc] at h
    dsimp only at h
    cases hd : descStage keptC pref lim (iterDescriptions true ds) [] [] with
    | none => rw [hd] at h; simp at h
    | some q =>
      obtain ⟨keptD, drows⟩ := q
      rw [hd] at h
      dsimp only at h
      cases hl : langStage keptD (lrids.getD [EN_US_LANGREFSET, EN_GB_LANGREFSET])
          (iterLangRefset true ls) [] 0 with
      | none => rw [hl] at h; simp at h
      | some w =>
        obtain ⟨lrows, klang⟩ := w
        rw [hl] at h
        dsimp only at h
        injection h with h
        subst h
        exact ⟨keptC, keptD, klang, rfl, hd, hl, rfl⟩

/-- C2: referential closure of the extracted subset — every kept
description references a kept concept, every kept
language-acceptability row references a kept description, and every
IS-A edge extracted against the kept-concept id set has its child in
that set (the parent is unconstrained). -/
theorem C2_referential_closure (cs : List ConceptRow) (ds : List DescriptionRow)
    (ls : List LangRow) (rels : List RelRow) (seed : List Int)
    (lrids : Option (List Int)) (pref : Bool) (lim : Nat) (res : SubsetResult)
    (h : build_subset_rows cs ds ls seed lrids pref lim = some res) :
    (∀ d ∈ res.description_rows, d.2.1 ∈ res.concept_rows.map (fun t => t.1)) ∧
    (∀ l ∈ res.langrefset_rows, l.2.2.2.2.2.1 ∈ res.description_rows.map (fun t => t.1)) ∧
    (∀ e ∈ extractIsaEdges rels (res.concept_rows.map (fun t => t.1)),
       e.1 ∈ res.concept_rows.map (fun t => t.1)) := by
  obtain ⟨keptC, keptD, klang, hc, hd, hl, _⟩ := build_subset_rows_decompose _ _ _ _ _ _ _ _ h
  have hkc : keptC = res.concept_rows.map (fun t => t.1) :=
    conceptStage_sync seed _ [] [] _ hc rfl
  have hkd : keptD = res.description_rows.map (fun t => t.1) :=
    (descStage_sync_cap keptC pref lim _ [] [] _ hd).1 rfl
  refine ⟨?_, ?_, ?_⟩
  · intro d hdm
    rw [← hkc]
    exact (descStage_inv keptC pref lim _ [] [] _ hd (by simp) d hdm).1
  · intro l hlm
    rw [← hkd]
    exact langStage_mem keptD _ _ [] 0 _ hl (by simp) l hlm
  · intro e he
    exact extractIsaEdges_child_mem _ rels e he

/-- C2 witness: the closure applied to a concrete two-concept build (one
seeded inactive-free concept, a description for it, one acceptability
row for that description, and one IS-A edge), with the build hypothesis
discharged by evaluation. -/
theorem C2_referential_closure_witness :
    (100 : Int)
        ∈ ((build_subset_rows demoConcepts demoDescriptions [] [100, 200] none true 0).getD
            ⟨[], [], [], 0, 0, 0⟩).concept_rows.map (fun t => t.1) :=
  (C2_referential_closure demoConcepts demoDescriptions [] [] [100, 200] none true 0
      ((build_subset_rows demoConcepts demoDescriptions [] [100, 200] none true 0).getD
        ⟨[], [], [], 0, 0, 0⟩) rfl).1
    (11, 100, 1, "20240101", 5, "en", 900000000000003001, "A (finding)", 7) (by decide)

/-- C7: the kept-concept rows are exactly the stream's concept rows
whose active flag is the string "1" and whose parsed id is in the seed
set — each such row contributes its id, and no other id appears — and
the reader's `active_only` filter passes exactly the rows whose active
flag is "1". -/
theorem C7_kept_concepts_exact (cs : List ConceptRow) (ds : List DescriptionRow)
    (ls : List LangRow) (seed : List Int) (lrids : Option (List Int))
    (pref : Bool) (lim : Nat) (res : SubsetResult)
    (h : build_subset_rows cs ds ls seed lrids pref lim = some res) :
    (∀ cid : Int, cid ∈ res.concept_rows.map (fun t => t.1) ↔
        ∃ r ∈ cs, r.active = "1" ∧ pyInt? r.id = some cid ∧ cid ∈ seed) ∧
    (∀ rows : List ConceptRow,
        (∀ r ∈ iterConcepts true rows, r.active = "1" ∧ r ∈ rows) ∧
        (∀ r ∈ rows, r.active = "1" → r ∈ iterConcepts true rows)) := by
  obtain ⟨keptC, keptD, klang, hc, hd, hl, _⟩ := build_subset_rows_decompose _ _ _ _ _ _ _ _ h
  have hkc : keptC = res.concept_rows.map (fun t => t.1) :=
    conceptStage_sync seed _ [] [] _ hc rfl
  constructor
  · intro cid
    rw [← hkc]
    rw [conceptStage_mem seed _ [] [] _ hc cid]
    simp only [List.not_mem_nil, false_or]
    constructor
    · rintro ⟨row, hrow, hid, hs⟩
      have : row ∈ cs ∧ rowIsActive row.active = true := by
        simpa [iterConcepts] using hrow
      exact ⟨row, this.1, by simpa [rowIsActive] using this.2, hid, hs⟩
    · rintro ⟨row, hrow, hact, hid, hs⟩
      refine ⟨row, ?_, hid, hs⟩
      simp [iterConcepts, rowIsActive, hact, hrow]
  · intro rows
    constructor
    · intro r hr
      have : r ∈ rows ∧ rowIsActive r.active = true := by
        simpa [iterConcepts] using hr
      exact ⟨by simpa [rowIsActive] using this.2, this.1⟩
    · intro r hr hact
      simp [iterConcepts, rowIsActive, hact, hr]

/-- C7 witness: in the demonstration build, seeded active concept 100 is
kept, exhibited through the theorem's exactness direction with every
hypothesis discharged by evaluation. -/
theorem C7_kept_concepts_exact_witness :
    (100 : Int) ∈ ((build_subset_rows demoConcepts demoDescriptions [] [100, 200] none true 0).getD
        ⟨[], [], [], 0, 0, 0⟩).concept_rows.map (fun t => t.1) :=
  ((C7_kept_concepts_exact demoConcepts demoDescriptions [] [100, 200] none true 0
      ((build_subset_rows demoConcepts demoDescriptions [] [100, 200] none true 0).getD
        ⟨[], [], [], 0, 0, 0⟩) rfl).1 100).mpr
    ⟨⟨"100", "1", "20240101", "5", "6"⟩, by decide, rfl, by decide, by decide⟩

/-- C8: in terms-only mode every kept description's type id is the
fully-specified-name or synonym type id; for every non-zero cap `n` at
most `n` description rows are kept and streaming stops once `n` kept
rows are reached (rows after that point cannot change the result); and
the cap is a total row-count budget, not a per-concept one: in the
demonstration stream, a cap of 2 is consumed entirely by the first
concept and the later concept's otherwise-kept description is dropped,
while the uncapped build keeps it. -/
theorem C8_description_filtering :
    (∀ (cs : List ConceptRow) (ds : List DescriptionRow) (ls : List LangRow)
        (seed : List Int) (lrids : Option (List Int)) (lim : Nat) (res : SubsetResult),
        build_subset_rows cs ds ls seed lrids true lim = some res →
        ∀ d ∈ res.description_rows,
          d.2.2.2.2.2.2.1 = FSN_TYPE_ID ∨ d.2.2.2.2.2.2.1 = SYN_TYPE_ID) ∧
    (∀ (cs : List ConceptRow) (ds : List DescriptionRow) (ls : List LangRow)
        (seed : List Int) (lrids : Option (List Int)) (n : Nat) (res : SubsetResult),
        n ≠ 0 → build_subset_rows cs ds ls seed lrids true n = some res →
        res.description_rows.length ≤ n) ∧
    (∀ (cs : List ConceptRow) (ds₁ ds₂ : List DescriptionRow) (ls : List LangRow)
        (seed : List Int) (lrids : Option (List Int)) (pref : Bool) (n : Nat)
        (res : SubsetResult),
        n ≠ 0 → build_subset_rows cs ds₁ ls seed lrids pref n = some res →
        res.description_rows.length = n →
        build_subset_rows cs (ds₁ ++ ds₂) ls seed lrids pref n = some res) ∧
    ((build_subset_rows demoConcepts demoDescriptions [] [100, 200] none true 2).map
        (fun r => r.description_rows.map (fun d => d.2.1)) = some [100, 100] ∧
     (build_subset_rows demoConcepts demoDescriptions [] [100, 200] none true 0).map
        (fun r => r.description_rows.map (fun d => d.2.1)) = some [100, 100, 200]) := by
  refine ⟨?_, ?_, ?_, by decide, by decide⟩
  · intro cs ds ls seed lrids lim res h d hd
    obtain ⟨keptC, keptD, klang, hc, hdq, hl, _⟩ := build_subset_rows_decompose _ _ _ _ _ _ _ _ h
    exact (descStage_inv keptC true lim _ [] [] _ hdq (by simp) d hd).2 rfl
  · intro cs ds ls seed lrids n res hn h
    obtain ⟨keptC, keptD, klang, hc, hdq, hl, _⟩ := build_subset_rows_decompose _ _ _ _ _ _ _ _ h
    exact (descStage_sync_cap keptC true n _ [] [] _ hdq).2 hn
      (by simpa using Nat.pos_of_ne_zero hn)
  · intro cs ds₁ ds₂ ls seed lrids pref n res hn h hlen
    obtain ⟨keptC, keptD, klang, hc, hdq, hl, hres⟩ := build_subset_rows_decompose _ _ _ _ _ _ _ _ h
    have hsplit : iterDescriptions true (ds₁ ++ ds₂)
        = iterDescriptions true ds₁ ++ iterDescriptions true ds₂ := by
      simp [iterDescriptions]
    have hstop := descStage_stop keptC pref n (iterDescriptions true ds₁)
      (iterDescriptions true ds₂) [] [] (keptD, res.description_rows) hn
      (by simpa using Nat.pos_of_ne_zero hn) hdq hlen
    simp only [build_subset_rows, hsplit]
    rw [hc]
    simp only
    rw [hstop]
    simp only
    rw [hl]
    simp only
    rw [hres]

/-- C8 witness: the terms-only, cap, and early-stop conclusions applied
to the demonstration build with a cap of 2, all hypotheses discharged by
evaluation. -/
theorem C8_description_filtering_witness :
    ((11, 100, 1, "20240101", 5, "en", (900000000000003001 : Int), "A (finding)",
        (7 : Int)).2.2.2.2.2.2.1 = FSN_TYPE_ID ∨
      (11, 100, (1 : Int), "20240101", 5, "en", (900000000000003001 : Int), "A (finding)",
        (7 : Int)).2.2.2.2.2.2.1 = SYN_TYPE_ID) ∧
    ((build_subset_rows demoConcepts demoDescriptions [] [100, 200] none true 2).getD
        ⟨[], [], [], 0, 0, 0⟩).description_rows.length ≤ 2 ∧
    build_subset_rows demoConcepts
        (demoDescriptions ++ [⟨"22", "1", "20240101", "5", "200", "en",
          "900000000000013009", "B", "7"⟩]) [] [100, 200] none true 2
      = some ((build_subset_rows demoConcepts demoDescriptions [] [100, 200] none true 2).getD
          ⟨[], [], [], 0, 0, 0⟩) :=
  ⟨C8_description_filtering.1 demoConcepts demoDescriptions [] [100, 200] none 2
      ((build_subset_rows demoConcepts demoDescriptions [] [100, 200] none true 2).getD
        ⟨[], [], [], 0, 0, 0⟩) rfl
      (11, 100, 1, "20240101", 5, "en", 900000000000003001, "A (finding)", 7) (by decide),
   C8_description_filtering.2.1 demoConcepts demoDescriptions [] [100, 200] none 2
      ((build_subset_rows demoConcepts demoDescriptions [] [100, 200] none true 2).getD
        ⟨[], [], [], 0, 0, 0⟩) (by decide) rfl,
   C8_description_filtering.2.2.1 demoConcepts demoDescriptions
      [⟨"22", "1", "20240101", "5", "200", "en", "900000000000013009", "B", "7"⟩]
      [] [100, 200] none true 2
      ((build_subset_rows demoConcepts demoDescriptions [] [100, 200] none true 2).getD
        ⟨[], [], [], 0, 0, 0⟩) (by decide) rfl (by decide)⟩

end SnomedBuilder
